import Mathlib

/-!
Verification of the risk-scoring and crossing-analysis engine of the
device-fingerprinting-analyzer repository.

The development shallowly embeds the three core components:

* `RiskCalculator.calculate_device_risk` (src/src/risk_calculator.py, lines 22-61),
* `DeviceMatcher.calculate_similarity` / `are_related` (src/src/device_matcher.py),
* the graph builder of the `/graph-data` endpoint (src/routes/api.py,
  `get_graph_data`, lines 65-103).

Python dict records are embedded as structures with `Option`-valued fields
(`dict.get` returning `None` for a missing key becomes the `none` case);
Python floats are embedded as rationals.  `round(x, 2)` is embedded as
rounding `100 * x` to the nearest integer: Python uses round-half-to-even,
but every score produced by the engine has `100 * score` with fractional
part in {0, 1/3, 2/3}, so no tie ever arises and every nearest-integer
convention coincides on the reachable values; we use Mathlib's `round`.
-/

namespace DFA

/-- Rounding to two decimal places, as `round(score, 2)` at
src/src/risk_calculator.py line 53. -/
def round2 (x : ℚ) : ℚ := (round (x * 100) : ℚ) / 100

/-! ## Risk scoring engine (src/src/risk_calculator.py) -/

/-- The device record as consumed by `calculate_device_risk`: only the two
boolean flags are read (`device.get('is_vpn')`, `device.get('is_datacenter')`).
A missing key is `none`; Python truthiness of `None` is falsy, embedded as
`Option.getD false`. -/
structure RCDevice where
  is_vpn : Option Bool
  is_datacenter : Option Bool
deriving DecidableEq, Repr

/-- The account record as consumed by `calculate_device_risk`: only
`acc.get('risk_score', 0)` is read. -/
structure RCAccount where
  risk_score : Option ℚ
deriving DecidableEq, Repr

/-- The similarity comparator instance: its only state is the fixed
threshold 0.85 set in `DeviceMatcher.__init__`. -/
structure DeviceMatcher where
  similarity_threshold : ℚ
deriving DecidableEq, Repr

/-- `DeviceMatcher()` with its constructor default threshold. -/
def deviceMatcherInit : DeviceMatcher := { similarity_threshold := 85 / 100 }

/-- The `factors` mapping returned by `calculate_device_risk`
(src/src/risk_calculator.py lines 55-60). -/
structure Factors where
  vpn : Bool
  datacenter : Bool
  account_count : ℕ
  suspicious_accounts : ℕ
deriving DecidableEq, Repr

/-- The result dict of `calculate_device_risk` (lines 52-61). -/
structure RiskResult where
  risk_score : ℚ
  risk_level : String
  factors : Factors
deriving DecidableEq, Repr

/-- The immutable weight table built in `RiskCalculator.__init__`
(src/src/risk_calculator.py lines 13-20). -/
def weights_vpn : ℚ := 25
def weights_datacenter : ℚ := 30
def weights_multi_account : ℚ := 20
def weights_new_account : ℚ := 15
def weights_high_velocity : ℚ := 10
def weights_suspicious_os : ℚ := 8

/-- The raw (unrounded) score accumulated by `calculate_device_risk`
(src/src/risk_calculator.py lines 25-42): VPN weight, datacenter weight,
multi-account weight scaled by `account_count / 3` when the count exceeds 3,
and a flat 15.0 when any account has `risk_score > 60`. -/
def raw_score (device : RCDevice) (accounts : List RCAccount) : ℚ :=
  let score : ℚ := 0
  let score := if device.is_vpn.getD false then score + weights_vpn else score
  let score := if device.is_datacenter.getD false then score + weights_datacenter else score
  let account_count := accounts.length
  let score :=
    if account_count > 3 then score + weights_multi_account * ((account_count : ℚ) / 3)
    else score
  let suspicious_accounts := accounts.countP (fun acc => decide (acc.risk_score.getD 0 > 60))
  if suspicious_accounts > 0 then score + 15 else score

/-- `RiskCalculator.calculate_device_risk` (src/src/risk_calculator.py lines
22-61).  The `ip_data` and `matcher` parameters are accepted, as in the
source, and never read.  The risk level is derived from the unrounded score
(lines 45-50) and the returned score is rounded to two decimals (line 53). -/
def calculate_device_risk (device : RCDevice) (accounts : List RCAccount)
    (_ip_data : List (String × String)) (_matcher : Option DeviceMatcher) : RiskResult :=
  let score := raw_score device accounts
  let risk_level := if score ≥ 70 then "high" else if score ≥ 40 then "medium" else "low"
  { risk_score := round2 score
    risk_level := risk_level
    factors :=
      { vpn := device.is_vpn.getD false
        datacenter := device.is_datacenter.getD false
        account_count := accounts.length
        suspicious_accounts := accounts.countP (fun acc => decide (acc.risk_score.getD 0 > 60)) } }

/-! ## Fingerprint similarity comparator (src/src/device_matcher.py) -/

/-- The four fields compared by `calculate_similarity` (line 17). -/
def simFields : List String := ["os", "browser", "screen_resolution", "timezone"]

/-- A device fingerprint as seen by the matcher: a dict from field name to
string value, with missing fields reported as `none` by `.get`. -/
def FingerprintDict : Type := String → Option String

/-- One field comparison `device1.get(field) == device2.get(field)`
(src/src/device_matcher.py line 18): direct equality on the optional
values, so two missing values (`None == None`) compare equal. -/
def fieldMatch (device1 device2 : FingerprintDict) (f : String) : Bool :=
  decide (device1 f = device2 f)

/-- `DeviceMatcher.calculate_similarity` (src/src/device_matcher.py lines
12-22): count matching fields over the four fixed fields and divide by the
total, which the loop increments once per field. -/
def calculate_similarity (device1 device2 : FingerprintDict) : ℚ :=
  let counts := simFields.foldl
    (fun (p : ℕ × ℕ) f => (if fieldMatch device1 device2 f then p.1 + 1 else p.1, p.2 + 1))
    (0, 0)
  if counts.2 > 0 then (counts.1 : ℚ) / (counts.2 : ℚ) else 0

/-- `DeviceMatcher.are_related` (src/src/device_matcher.py lines 24-27). -/
def are_related (m : DeviceMatcher) (device1 device2 : FingerprintDict) : Bool :=
  decide (calculate_similarity device1 device2 ≥ m.similarity_threshold)

/-! ## Crossing graph builder (src/routes/api.py, `get_graph_data`, lines 65-103)

The endpoint iterates the crossing list in order, keeping an
insertion-ordered node map (a Python dict keyed by raw identifier) and a
link list.  The two `db.session.get` calls are the opaque lookup callbacks
of the spec; the embedding records every id passed to each callback in
`dcalls` / `acalls` so that lookup-frugality claims can be stated. -/

/-- The fields of a `Device` row read by the graph builder. -/
structure GDevice where
  os : String
  browser : String
  risk_score : ℚ
deriving DecidableEq, Repr

/-- The fields of an `Account` row read by the graph builder. -/
structure GAccount where
  kyc_level : String
  risk_score : ℚ
deriving DecidableEq, Repr

/-- A `DeviceAccountCrossing` row as read by the graph builder. -/
structure Crossing where
  device_id : String
  account_id : String
  risk_flag : String
deriving DecidableEq, Repr

/-- A node of the output graph (src/routes/api.py lines 73-78 and 84-89). -/
structure GNode where
  id : String
  group : String
  risk_score : ℚ
  label : String
deriving DecidableEq, Repr

/-- A link of the output graph (src/routes/api.py lines 93-98). -/
structure GLink where
  source : String
  target : String
  value : ℕ
  risk_flag : String
deriving DecidableEq, Repr

/-- The node built for a device (src/routes/api.py lines 73-78). -/
def mkDeviceNode (id : String) (d : GDevice) : GNode :=
  { id := id, group := "device", risk_score := d.risk_score,
    label := d.os ++ " - " ++ d.browser }

/-- The node built for an account (src/routes/api.py lines 84-89). -/
def mkAccountNode (id : String) (a : GAccount) : GNode :=
  { id := id, group := "account", risk_score := a.risk_score,
    label := "Account (" ++ a.kyc_level ++ ")" }

/-- The link built for a crossing (src/routes/api.py lines 93-98). -/
def mkLink (c : Crossing) : GLink :=
  { source := c.device_id, target := c.account_id, value := 1, risk_flag := c.risk_flag }

/-- `k in nodes`: key membership in the insertion-ordered node map. -/
def hasKey (nodes : List (String × GNode)) (k : String) : Bool :=
  nodes.any (fun p => decide (p.1 = k))

/-- `nodes[k]`: the node stored at key `k` (first binding wins; the builder
never overwrites a key, so there is at most one binding per key). -/
def nodeAt (nodes : List (String × GNode)) (k : String) : Option GNode :=
  (nodes.find? (fun p => decide (p.1 = k))).map (fun p => p.2)

/-- The builder state: the node map (insertion-ordered), the link list, and
the ids passed so far to the device lookup and to the account lookup. -/
structure BState where
  nodes : List (String × GNode)
  links : List GLink
  dcalls : List String
  acalls : List String
deriving DecidableEq, Repr

/-- Initial state: `nodes = {}`, `links = []`, no lookup performed yet. -/
def initState : BState := { nodes := [], links := [], dcalls := [], acalls := [] }

/-- The device-node phase of one loop iteration (src/routes/api.py lines
70-78): if the device id is not yet a key, invoke the device lookup and, on
success, append the device node. -/
def stepDevice (dl : String → Option GDevice) (st : BState) (c : Crossing) : BState :=
  if hasKey st.nodes c.device_id then st
  else
    match dl c.device_id with
    | some d =>
        { st with nodes := st.nodes ++ [(c.device_id, mkDeviceNode c.device_id d)],
                  dcalls := st.dcalls ++ [c.device_id] }
    | none => { st with dcalls := st.dcalls ++ [c.device_id] }

/-- The account-node phase of one loop iteration (src/routes/api.py lines
81-89): if the account id is not yet a key, invoke the account lookup and,
on success, append the account node. -/
def stepAccount (al : String → Option GAccount) (st : BState) (c : Crossing) : BState :=
  if hasKey st.nodes c.account_id then st
  else
    match al c.account_id with
    | some a =>
        { st with nodes := st.nodes ++ [(c.account_id, mkAccountNode c.account_id a)],
                  acalls := st.acalls ++ [c.account_id] }
    | none => { st with acalls := st.acalls ++ [c.account_id] }

/-- The link phase of one loop iteration (src/routes/api.py lines 92-98):
append the link exactly when both endpoints are keys of the node map. -/
def stepLink (st : BState) (c : Crossing) : BState :=
  if hasKey st.nodes c.device_id && hasKey st.nodes c.account_id then
    { st with links := st.links ++ [mkLink c] }
  else st

/-- One full iteration of the `for c in crossings` loop. -/
def stepCrossing (dl : String → Option GDevice) (al : String → Option GAccount)
    (st : BState) (c : Crossing) : BState :=
  stepLink (stepAccount al (stepDevice dl st c) c) c

/-- The loop over the crossing list, threading the builder state. -/
def buildAux (dl : String → Option GDevice) (al : String → Option GAccount)
    (st : BState) : List Crossing → BState
  | [] => st
  | c :: cs => buildAux dl al (stepCrossing dl al st c) cs

/-- The graph builder of `get_graph_data` (src/routes/api.py lines 65-103):
fold the loop body over the crossings starting from the empty state. -/
def build_graph (dl : String → Option GDevice) (al : String → Option GAccount)
    (crossings : List Crossing) : BState :=
  buildAux dl al initState crossings

/-! ## Spec-side definitions and concrete inputs -/

/-- The fixed three-tier classification of §4.2 of the spec, applied to a
score: `score >= 70 → high`, `40 <= score < 70 → medium`, else `low`. -/
def risk_level_of (s : ℚ) : String :=
  if s ≥ 70 then "high" else if s ≥ 40 then "medium" else "low"

/-- A device record with the documented defaults filled in explicitly
(missing boolean flags default to `false`). -/
def rcDeviceDefaulted (d : RCDevice) : RCDevice :=
  { is_vpn := some (d.is_vpn.getD false), is_datacenter := some (d.is_datacenter.getD false) }

/-- An account record with the documented default filled in explicitly
(missing `risk_score` defaults to `0`). -/
def rcAccountDefaulted (a : RCAccount) : RCAccount :=
  { risk_score := some (a.risk_score.getD 0) }

/-- A score is a third of an integer.  Every raw score the engine produces
has this shape, since the only non-integer contribution is `20 * (n / 3)`. -/
def IsThirdInt (x : ℚ) : Prop := ∃ k : ℤ, 3 * x = (k : ℚ)

/-- A fingerprint dict with every field missing. -/
def emptyFingerprint : FingerprintDict := fun _ => none

/-- A fingerprint dict carrying only an `os` value. -/
def fpOsLinux : FingerprintDict := fun f => if f = "os" then some "Linux" else none

/-- A device record with both boolean flags missing. -/
def rcDeviceBare : RCDevice := { is_vpn := none, is_datacenter := none }

/-- An account with risk score 0 (not suspicious). -/
def rcAccountCalm : RCAccount := { risk_score := some 0 }

/-- An account with risk score 100 (suspicious: above the 60 threshold). -/
def rcAccountSusp : RCAccount := { risk_score := some 100 }

/-- An empty `ip_data` dict. -/
def ipEmpty : List (String × String) := []

/-- A device lookup in which every id is absent. -/
def dlAbsent : String → Option GDevice := fun _ => none

/-- An account lookup that resolves every id to a fixed verified account. -/
def alAlways : String → Option GAccount := fun _ => some { kyc_level := "verified", risk_score := 10 }

/-- An account lookup in which every id is absent. -/
def alAbsent : String → Option GAccount := fun _ => none

/-- A single crossing whose device is absent but whose account resolves. -/
def csOrphanDevice : List Crossing := [{ device_id := "d1", account_id := "a1", risk_flag := "low" }]

/-- Two crossings referencing the same absent device id. -/
def csRepeatAbsent : List Crossing :=
  [{ device_id := "d1", account_id := "a1", risk_flag := "low" },
   { device_id := "d1", account_id := "a2", risk_flag := "low" }]

/-- A device row used by the collision example. -/
def gDeviceX : GDevice := { os := "Linux", browser := "Firefox", risk_score := 5 }

/-- A device lookup resolving only the id `x`. -/
def dlOnlyX : String → Option GDevice := fun s => if s = "x" then some gDeviceX else none

/-- An account lookup resolving only the id `a1`. -/
def alOnlyA1 : String → Option GAccount :=
  fun s => if s = "a1" then some { kyc_level := "verified", risk_score := 10 } else none

/-- Collision example: the second crossing's account id `x` is already in
the node map as a device node, and the second crossing's device id `d2` is
absent from the device lookup. -/
def csCollision : List Crossing :=
  [{ device_id := "x", account_id := "a1", risk_flag := "low" },
   { device_id := "d2", account_id := "x", risk_flag := "high" }]

/-- A builder state holding the device node for `x`, as after processing
the first crossing of the collision example. -/
def stColl : BState :=
  { nodes := [("x", mkDeviceNode "x" gDeviceX)], links := [], dcalls := ["x"], acalls := [] }

/-- The collision crossing: its account id `x` is already a device node. -/
def cColl : Crossing := { device_id := "d2", account_id := "x", risk_flag := "high" }

/-! ## Theorems -/

/-- C8: noninterference of the extension-point parameters.  For any two
values of `ip_data` and any two values of `matcher`, `calculate_device_risk`
returns identical results: the parameters are accepted and ignored. -/
theorem extension_params_ignored (d : RCDevice) (accs : List RCAccount)
    (ip1 ip2 : List (String × String)) (m1 m2 : Option DeviceMatcher) :
    calculate_device_risk d accs ip1 m1 = calculate_device_risk d accs ip2 m2 := rfl

/-- C9: comparator range.  `calculate_similarity` returns the number of
matching fields among the four fixed fields divided by four, so the result
is always one of 0, 1/4, 1/2, 3/4, 1. -/
theorem similarity_range (d1 d2 : FingerprintDict) :
    calculate_similarity d1 d2 = (simFields.countP (fieldMatch d1 d2) : ℚ) / 4 ∧
      (calculate_similarity d1 d2 = 0 ∨ calculate_similarity d1 d2 = 1/4 ∨
       calculate_similarity d1 d2 = 1/2 ∨ calculate_similarity d1 d2 = 3/4 ∨
       calculate_similarity d1 d2 = 1) := by
  cases h1 : fieldMatch d1 d2 "os" <;> cases h2 : fieldMatch d1 d2 "browser" <;>
    cases h3 : fieldMatch d1 d2 "screen_resolution" <;> cases h4 : fieldMatch d1 d2 "timezone" <;>
    simp [calculate_similarity, simFields, List.foldl, List.countP, List.countP.go,
      h1, h2, h3, h4] <;> norm_num

/-- C4 counterexample: two records both missing every field.  The field
`os` is absent from both, yet it is counted as a match (`None == None` in
the source) and the similarity of the two empty records is 1, not 0 — the
claim that a field absent from both records is not counted as a match is
false. -/
theorem missing_both_counted_as_match :
    fieldMatch emptyFingerprint emptyFingerprint "os" = true ∧
      calculate_similarity emptyFingerprint emptyFingerprint = 1 := by
  constructor
  · rfl
  · show calculate_similarity emptyFingerprint emptyFingerprint = 1
    norm_num [calculate_similarity, simFields, fieldMatch, emptyFingerprint, List.foldl]

/-- C4 amended: a field absent from both records IS counted as a match
(the source compares the two `None` sentinels directly and they are equal),
while a field absent from exactly one record counts as a non-match; the
comparison is total. -/
theorem missing_field_semantics (d1 d2 : FingerprintDict) (f : String) :
    (d1 f = none → d2 f = none → fieldMatch d1 d2 f = true) ∧
      (d1 f = none → (d2 f).isSome → fieldMatch d1 d2 f = false) ∧
      ((d1 f).isSome → d2 f = none → fieldMatch d1 d2 f = false) := by
  refine ⟨fun h1 h2 => ?_, fun h1 h2 => ?_, fun h1 h2 => ?_⟩
  · simp [fieldMatch, h1, h2]
  · rw [Option.isSome_iff_exists] at h2
    obtain ⟨s, hs⟩ := h2
    simp [fieldMatch, h1, hs]
  · rw [Option.isSome_iff_exists] at h1
    obtain ⟨s, hs⟩ := h1
    simp [fieldMatch, hs, h2]

/-- Witness for C4 amended, at concrete inputs: a field missing from both
records matches; a field present on exactly one side does not. -/
theorem missing_field_semantics_witness :
    fieldMatch emptyFingerprint emptyFingerprint "browser" = true ∧
      fieldMatch emptyFingerprint fpOsLinux "os" = false :=
  ⟨(missing_field_semantics emptyFingerprint emptyFingerprint "browser").1 rfl rfl,
   (missing_field_semantics emptyFingerprint fpOsLinux "os").2.1 rfl (by decide)⟩

/-- C7: totality via defaulting.  The engine is a total function of its
inputs (every embedded operation is a total Lean function), and a record
missing a field behaves exactly as the record with the documented default
filled in: missing boolean flags as `false`, missing account risk scores
as `0` (hence not suspicious). -/
theorem defaulting_totality (d : RCDevice) (accs : List RCAccount)
    (ip : List (String × String)) (m : Option DeviceMatcher) :
    calculate_device_risk d accs ip m =
      calculate_device_risk (rcDeviceDefaulted d) (accs.map rcAccountDefaulted) ip m := by
  simp only [calculate_device_risk, raw_score, rcDeviceDefaulted, rcAccountDefaulted,
    List.countP_map, List.length_map, Option.getD_some]
  have hsame : ((fun acc => decide (60 < acc.risk_score.getD 0)) ∘ rcAccountDefaulted) =
      fun acc : RCAccount => decide (60 < acc.risk_score.getD 0) := by
    funext a
    simp [rcAccountDefaulted]
  simp [hsame]

/-- C5: scoring formula postcondition.  The returned `risk_score` is the
two-decimal rounding of VPN weight + datacenter weight + continuous
multi-account term + flat suspicious bonus, with no other contribution and
no cap. -/
theorem scoring_formula (d : RCDevice) (accs : List RCAccount)
    (ip : List (String × String)) (m : Option DeviceMatcher) :
    (calculate_device_risk d accs ip m).risk_score =
      round2 ((if d.is_vpn.getD false then (25 : ℚ) else 0) +
        (if d.is_datacenter.getD false then (30 : ℚ) else 0) +
        (if accs.length > 3 then 20 * ((accs.length : ℚ) / 3) else 0) +
        (if ∃ a ∈ accs, a.risk_score.getD 0 > 60 then (15 : ℚ) else 0)) := by
  have hsusp : (0 < accs.countP fun acc => decide (acc.risk_score.getD 0 > 60)) ↔
      ∃ a ∈ accs, a.risk_score.getD 0 > 60 := by
    rw [List.countP_pos_iff]
    simp
  simp only [calculate_device_risk]
  congr 1
  simp only [raw_score, weights_vpn, weights_datacenter, weights_multi_account]
  by_cases hv : d.is_vpn.getD false <;> by_cases hd : d.is_datacenter.getD false <;>
    by_cases hn : 3 < accs.length <;>
    by_cases hs : ∃ a ∈ accs, a.risk_score.getD 0 > 60 <;>
    simp [hv, hd, hn, hs, hsusp, gt_iff_lt]

/-- Every raw score is a third of an integer: the only non-integer
contribution is `20 * (account_count / 3)`. -/
theorem isThirdInt_raw_score (d : RCDevice) (accs : List RCAccount) :
    IsThirdInt (raw_score d accs) := by
  refine ⟨(if d.is_vpn.getD false then 75 else 0) +
    (if d.is_datacenter.getD false then 90 else 0) +
    (if 3 < accs.length then 20 * (accs.length : ℤ) else 0) +
    (if 0 < accs.countP (fun acc => decide (acc.risk_score.getD 0 > 60)) then 45 else 0), ?_⟩
  simp only [raw_score, weights_vpn, weights_datacenter, weights_multi_account]
  by_cases hv : d.is_vpn.getD false <;> by_cases hd : d.is_datacenter.getD false <;>
    by_cases hn : 3 < accs.length <;>
    by_cases hs : 0 < accs.countP (fun acc => decide (acc.risk_score.getD 0 > 60)) <;>
    simp [hv, hd, hn, hs, gt_iff_lt] <;> push_cast [mul_comm] <;> ring_nf

/-- For a score that is a third of an integer, rounding to two decimals
never crosses an integer threshold: the fractional part of `100 * x` lies
in {0, 1/3, 2/3}, more than half a cent away from the next integer score. -/
theorem int_le_round2_iff {x : ℚ} (t : ℤ) (h : IsThirdInt x) :
    ((t : ℚ) ≤ round2 x ↔ (t : ℚ) ≤ x) := by
  obtain ⟨k, hk⟩ := h
  have habs := abs_sub_round (x * 100)
  rw [abs_le] at habs
  unfold round2
  constructor
  · intro hle
    have h1 : ((100 * t : ℤ) : ℚ) ≤ (round (x * 100) : ℚ) := by
      push_cast
      linarith
    have h2 : (100 * t : ℤ) ≤ round (x * 100) := by exact_mod_cast h1
    have h3 : (round (x * 100) : ℚ) ≤ x * 100 + 1 / 2 := by linarith [habs.1]
    have h4 : ((100 * t : ℤ) : ℚ) ≤ x * 100 + 1 / 2 := le_trans h1 h3
    have h5 : ((300 * t : ℤ) : ℚ) < ((100 * k : ℤ) : ℚ) + 2 := by
      push_cast at h4 ⊢
      nlinarith [hk]
    have h6 : (300 * t : ℤ) < 100 * k + 2 := by exact_mod_cast h5
    have h7 : 3 * t ≤ k := by omega
    have h8 : (3 * t : ℚ) ≤ (k : ℚ) := by exact_mod_cast h7
    linarith [hk]
  · intro hle
    have h1 : (round (x * 100) : ℚ) ≥ x * 100 - 1 / 2 := by linarith [habs.2]
    have h2 : (round (x * 100) : ℚ) > ((100 * t - 1 : ℤ) : ℚ) := by
      push_cast
      linarith
    have h3 : round (x * 100) > 100 * t - 1 := by exact_mod_cast h2
    have h4 : round (x * 100) ≥ 100 * t := by omega
    have h5 : (round (x * 100) : ℚ) ≥ ((100 * t : ℤ) : ℚ) := by exact_mod_cast h4
    push_cast at h5
    linarith

/-- Rounding to two decimals is the identity on integer scores. -/
theorem round2_intCast (k : ℤ) : round2 (k : ℚ) = (k : ℚ) := by
  unfold round2
  have hcast : ((k : ℚ) * 100) = ((k * 100 : ℤ) : ℚ) := by push_cast; ring
  rw [hcast, round_intCast]
  push_cast
  ring

/-- Rounding to two decimals commutes with adding an integer. -/
theorem round2_add_int (x : ℚ) (j : ℤ) : round2 (x + (j : ℚ)) = round2 x + (j : ℚ) := by
  unfold round2
  have hsplit : (x + (j : ℚ)) * 100 = x * 100 + ((j * 100 : ℤ) : ℚ) := by push_cast; ring
  rw [hsplit, round_add_int]
  push_cast
  ring

/-- C3 counterexample: starting from three calm accounts on a bare device,
appending one suspicious account (risk 100) moves the rounded score from
0.0 to 41.67, not by the +15.0 the claim demands: the appended account also
raises the account count past 3, switching on the multi-account term. -/
theorem suspicious_bonus_counterexample :
    (calculate_device_risk rcDeviceBare
        [rcAccountCalm, rcAccountCalm, rcAccountCalm, rcAccountSusp] ipEmpty none).risk_score =
      4167 / 100 ∧
    (calculate_device_risk rcDeviceBare
        [rcAccountCalm, rcAccountCalm, rcAccountCalm] ipEmpty none).risk_score = 0 ∧
    (4167 / 100 : ℚ) ≠ 0 + 15 := by
  have hraw1 : raw_score rcDeviceBare
      [rcAccountCalm, rcAccountCalm, rcAccountCalm, rcAccountSusp] = 125 / 3 := by
    norm_num [raw_score, rcDeviceBare, rcAccountCalm, rcAccountSusp, weights_vpn,
      weights_datacenter, weights_multi_account, List.countP, List.countP.go]
  have hraw0 : raw_score rcDeviceBare [rcAccountCalm, rcAccountCalm, rcAccountCalm] = 0 := by
    norm_num [raw_score, rcDeviceBare, rcAccountCalm, weights_vpn,
      weights_datacenter, weights_multi_account, List.countP, List.countP.go]
  refine ⟨?_, ?_, by norm_num⟩
  · simp only [calculate_device_risk, hraw1]
    rw [round2, round_eq]
    norm_num
  · simp only [calculate_device_risk, hraw0]
    rw [round2, round_eq]
    norm_num

/-- C3 amended: appending one suspicious account (risk_score > 60) changes
the returned risk_score by exactly +15.0 when the original list contained
no suspicious account and by +0.0 otherwise, PROVIDED the original list has
at most 2 accounts, so that the multi-account term is unchanged; with 3 or
more accounts the appended account also changes the `20 * (n / 3)` term. -/
theorem suspicious_bonus_delta (d : RCDevice) (accs : List RCAccount)
    (ip : List (String × String)) (m : Option DeviceMatcher) (acc : RCAccount)
    (hlen : accs.length ≤ 2) (hsusp : acc.risk_score.getD 0 > 60) :
    (calculate_device_risk d (accs ++ [acc]) ip m).risk_score =
      (calculate_device_risk d accs ip m).risk_score +
        (if ∃ a ∈ accs, a.risk_score.getD 0 > 60 then 0 else 15) := by
  have hlen1 : ¬ (3 < accs.length) := by omega
  have hlen2 : ¬ (3 < (accs ++ [acc]).length) := by
    simp only [List.length_append, List.length_singleton]
    omega
  have hnew : 0 < (accs ++ [acc]).countP fun a => decide (a.risk_score.getD 0 > 60) := by
    rw [List.countP_pos_iff]
    exact ⟨acc, by simp, by simpa using hsusp⟩
  have hlen3 : ¬ (3 < accs.length + 1) := by omega
  simp only [calculate_device_risk, raw_score, weights_vpn, weights_datacenter,
    weights_multi_account]
  by_cases hs : ∃ a ∈ accs, a.risk_score.getD 0 > 60
  · have hold : 0 < accs.countP fun a => decide (a.risk_score.getD 0 > 60) := by
      rw [List.countP_pos_iff]
      obtain ⟨a, ha, hgt⟩ := hs
      exact ⟨a, ha, by simpa using hgt⟩
    simp [hlen1, hlen3, hnew, hold, hs]
  · have hold : ¬ (0 < accs.countP fun a => decide (a.risk_score.getD 0 > 60)) := by
      rw [List.countP_pos_iff]
      intro ⟨a, ha, hgt⟩
      exact hs ⟨a, ha, by simpa using hgt⟩
    simp [hlen1, hlen3, hnew, hold, hs, hsusp]
    have hfifteen : (15 : ℚ) = ((15 : ℤ) : ℚ) := by norm_num
    rw [hfifteen, round2_add_int]

/-- Witness for C3 amended: appending the suspicious account to the empty
list (which has no suspicious account) raises the score by exactly 15. -/
theorem suspicious_bonus_delta_witness :
    (calculate_device_risk rcDeviceBare ([] ++ [rcAccountSusp]) ipEmpty none).risk_score =
      (calculate_device_risk rcDeviceBare [] ipEmpty none).risk_score +
        (if ∃ a ∈ ([] : List RCAccount), a.risk_score.getD 0 > 60 then 0 else 15) :=
  suspicious_bonus_delta rcDeviceBare [] ipEmpty none rcAccountSusp (by norm_num)
    (by norm_num [rcAccountSusp])

/-- Key membership distributes over appended node lists. -/
theorem hasKey_append (l t : List (String × GNode)) (k : String) :
    hasKey (l ++ t) k = (hasKey l k || hasKey t k) := by
  simp [hasKey, List.any_append]

/-- A key holding a node is a member key. -/
theorem hasKey_of_nodeAt {l : List (String × GNode)} {k : String} {n : GNode}
    (h : nodeAt l k = some n) : hasKey l k = true := by
  unfold nodeAt at h
  cases hf : l.find? (fun p => decide (p.1 = k)) with
  | none => simp [hf] at h
  | some p =>
    have hmem := List.mem_of_find?_eq_some hf
    have hpred := List.find?_some hf
    unfold hasKey
    rw [List.any_eq_true]
    exact ⟨p, hmem, hpred⟩

/-- Appending nodes on the right preserves an existing binding (the node
map keeps the first binding for a key). -/
theorem nodeAt_append_left {l : List (String × GNode)} (t : List (String × GNode)) {k : String}
    {n : GNode} (h : nodeAt l k = some n) : nodeAt (l ++ t) k = some n := by
  unfold nodeAt at h ⊢
  cases hf : l.find? (fun p => decide (p.1 = k)) with
  | none => simp [hf] at h
  | some p =>
    rw [List.find?_append, hf]
    simpa [hf] using h

/-- `stepDevice` only appends to the node map. -/
theorem stepDevice_nodes_extend (dl : String → Option GDevice) (st : BState) (c : Crossing) :
    ∃ t, (stepDevice dl st c).nodes = st.nodes ++ t := by
  unfold stepDevice
  split
  · exact ⟨[], by simp⟩
  · cases dl c.device_id with
    | some d => exact ⟨[(c.device_id, mkDeviceNode c.device_id d)], rfl⟩
    | none => exact ⟨[], by simp⟩

/-- `stepAccount` only appends to the node map. -/
theorem stepAccount_nodes_extend (al : String → Option GAccount) (st : BState) (c : Crossing) :
    ∃ t, (stepAccount al st c).nodes = st.nodes ++ t := by
  unfold stepAccount
  split
  · exact ⟨[], by simp⟩
  · cases al c.account_id with
    | some a => exact ⟨[(c.account_id, mkAccountNode c.account_id a)], rfl⟩
    | none => exact ⟨[], by simp⟩

/-- `stepLink` never changes the node map. -/
theorem stepLink_nodes (st : BState) (c : Crossing) : (stepLink st c).nodes = st.nodes := by
  unfold stepLink
  split <;> rfl

/-- One loop iteration only appends to the node map. -/
theorem stepCrossing_nodes_extend (dl : String → Option GDevice) (al : String → Option GAccount)
    (st : BState) (c : Crossing) : ∃ t, (stepCrossing dl al st c).nodes = st.nodes ++ t := by
  obtain ⟨t1, h1⟩ := stepDevice_nodes_extend dl st c
  obtain ⟨t2, h2⟩ := stepAccount_nodes_extend al (stepDevice dl st c) c
  refine ⟨t1 ++ t2, ?_⟩
  rw [stepCrossing, stepLink_nodes, h2, h1, List.append_assoc]

/-- Keys present in the node map stay present across one iteration. -/
theorem stepCrossing_hasKey_mono (dl : String → Option GDevice) (al : String → Option GAccount)
    (st : BState) (c : Crossing) (k : String) (h : hasKey st.nodes k = true) :
    hasKey (stepCrossing dl al st c).nodes k = true := by
  obtain ⟨t, ht⟩ := stepCrossing_nodes_extend dl al st c
  rw [ht, hasKey_append, h]
  rfl

/-- Keys present in the node map stay present for the rest of the loop. -/
theorem buildAux_hasKey_mono (dl : String → Option GDevice) (al : String → Option GAccount)
    (cs : List Crossing) : ∀ st k, hasKey st.nodes k = true →
      hasKey (buildAux dl al st cs).nodes k = true := by
  induction cs with
  | nil => intro st k h; exact h
  | cons c cs ih =>
    intro st k h
    exact ih (stepCrossing dl al st c) k (stepCrossing_hasKey_mono dl al st c k h)

/-- The device lookup trace of one iteration: the device id is recorded
exactly when it is not yet a key of the node map. -/
theorem stepCrossing_dcalls (dl : String → Option GDevice) (al : String → Option GAccount)
    (st : BState) (c : Crossing) :
    (stepCrossing dl al st c).dcalls =
      if hasKey st.nodes c.device_id then st.dcalls else st.dcalls ++ [c.device_id] := by
  have hacc : ∀ s, (stepAccount al s c).dcalls = s.dcalls := by
    intro s
    unfold stepAccount
    split
    · rfl
    · cases al c.account_id <;> rfl
  have hlink : ∀ s, (stepLink s c).dcalls = s.dcalls := by
    intro s
    unfold stepLink
    split <;> rfl
  rw [stepCrossing, hlink, hacc]
  unfold stepDevice
  split
  · simp_all
  · cases dl c.device_id <;> simp_all

/-- The account lookup trace of one iteration: the account id is recorded
exactly when it is not a key after the device phase of the same
iteration. -/
theorem stepCrossing_acalls (dl : String → Option GDevice) (al : String → Option GAccount)
    (st : BState) (c : Crossing) :
    (stepCrossing dl al st c).acalls =
      if hasKey (stepDevice dl st c).nodes c.account_id then st.acalls
      else st.acalls ++ [c.account_id] := by
  have hdev : (stepDevice dl st c).acalls = st.acalls := by
    unfold stepDevice
    split
    · rfl
    · cases dl c.device_id <;> rfl
  have hlink : ∀ s, (stepLink s c).acalls = s.acalls := by
    intro s
    unfold stepLink
    split <;> rfl
  rw [stepCrossing, hlink]
  unfold stepAccount
  split
  · simp_all
  · cases al c.account_id <;> simp_all

/-- After an iteration whose crossing has a resolvable device id, that id
is a key of the node map. -/
theorem stepCrossing_dkey_some (dl : String → Option GDevice) (al : String → Option GAccount)
    (st : BState) (c : Crossing) (h : (dl c.device_id).isSome = true) :
    hasKey (stepCrossing dl al st c).nodes c.device_id = true := by
  by_cases hk : hasKey st.nodes c.device_id = true
  · exact stepCrossing_hasKey_mono dl al st c c.device_id hk
  · obtain ⟨t2, h2⟩ := stepAccount_nodes_extend al (stepDevice dl st c) c
    rw [stepCrossing, stepLink_nodes, h2, hasKey_append]
    have hdev : hasKey (stepDevice dl st c).nodes c.device_id = true := by
      rw [Option.isSome_iff_exists] at h
      obtain ⟨d, hd⟩ := h
      unfold stepDevice
      rw [if_neg hk, hd]
      simp [hasKey_append, hasKey]
    rw [hdev]
    rfl

/-- After an iteration whose crossing has a resolvable account id, that id
is a key of the node map. -/
theorem stepCrossing_akey_some (dl : String → Option GDevice) (al : String → Option GAccount)
    (st : BState) (c : Crossing) (h : (al c.account_id).isSome = true) :
    hasKey (stepCrossing dl al st c).nodes c.account_id = true := by
  rw [stepCrossing, stepLink_nodes]
  by_cases hk : hasKey (stepDevice dl st c).nodes c.account_id = true
  · obtain ⟨t2, h2⟩ := stepAccount_nodes_extend al (stepDevice dl st c) c
    rw [h2, hasKey_append, hk]
    rfl
  · rw [Option.isSome_iff_exists] at h
    obtain ⟨a, ha⟩ := h
    unfold stepAccount
    rw [if_neg hk, ha]
    simp [hasKey_append, hasKey]

/-- Keys survive the device phase. -/
theorem stepDevice_hasKey_mono (dl : String → Option GDevice) (st : BState) (c : Crossing)
    (k : String) (h : hasKey st.nodes k = true) : hasKey (stepDevice dl st c).nodes k = true := by
  obtain ⟨t, ht⟩ := stepDevice_nodes_extend dl st c
  rw [ht, hasKey_append, h]
  rfl

/-- Keys present after the device phase survive the whole iteration. -/
theorem stepCrossing_hasKey_of_stepDevice (dl : String → Option GDevice)
    (al : String → Option GAccount) (st : BState) (c : Crossing) (k : String)
    (h : hasKey (stepDevice dl st c).nodes k = true) :
    hasKey (stepCrossing dl al st c).nodes k = true := by
  obtain ⟨t2, h2⟩ := stepAccount_nodes_extend al (stepDevice dl st c) c
  rw [stepCrossing, stepLink_nodes, h2, hasKey_append, h]
  rfl

/-- An id with a resolvable device record is passed to the device lookup
at most once more than it already was, and never again once it is a key. -/
theorem buildAux_dcalls_count (dl : String → Option GDevice) (al : String → Option GAccount)
    (id : String) (h : (dl id).isSome = true) :
    ∀ (cs : List Crossing) (st : BState),
      List.count id (buildAux dl al st cs).dcalls ≤
        List.count id st.dcalls + (if hasKey st.nodes id then 0 else 1) := by
  intro cs
  induction cs with
  | nil =>
    intro st
    show List.count id st.dcalls ≤ _
    split <;> omega
  | cons c cs ih =>
    intro st
    show List.count id (buildAux dl al (stepCrossing dl al st c) cs).dcalls ≤ _
    have hstep := ih (stepCrossing dl al st c)
    have hd := stepCrossing_dcalls dl al st c
    by_cases hk : hasKey st.nodes id = true
    · have hne : List.count id (stepCrossing dl al st c).dcalls = List.count id st.dcalls := by
        rw [hd]
        by_cases hck : hasKey st.nodes c.device_id = true
        · rw [if_pos hck]
        · rw [if_neg hck, List.count_append]
          have hnm : id ∉ [c.device_id] := by
            intro hmem
            rw [List.mem_singleton] at hmem
            rw [hmem] at hk
            exact hck hk
          rw [List.count_eq_zero.mpr hnm]
          omega
      have hkey2 := stepCrossing_hasKey_mono dl al st c id hk
      rw [hne, hkey2] at hstep
      rw [if_pos hk]
      simpa using hstep
    · rw [if_neg hk]
      by_cases hid : c.device_id = id
      · have hkey2 : hasKey (stepCrossing dl al st c).nodes id = true := by
          have hsome := stepCrossing_dkey_some dl al st c (by rw [hid]; exact h)
          rwa [hid] at hsome
        have hcnt : List.count id (stepCrossing dl al st c).dcalls =
            List.count id st.dcalls + 1 := by
          rw [hd, if_neg (by rw [hid]; exact hk), List.count_append, hid]
          simp
        rw [hcnt, hkey2] at hstep
        simp at hstep
        omega
      · have hcnt : List.count id (stepCrossing dl al st c).dcalls = List.count id st.dcalls := by
          rw [hd]
          by_cases hck : hasKey st.nodes c.device_id = true
          · rw [if_pos hck]
          · rw [if_neg hck, List.count_append]
            have hnm : id ∉ [c.device_id] := by
              intro hmem
              rw [List.mem_singleton] at hmem
              exact hid hmem.symm
            rw [List.count_eq_zero.mpr hnm]
            omega
        rw [hcnt] at hstep
        by_cases hk2 : hasKey (stepCrossing dl al st c).nodes id = true
        · rw [hk2] at hstep
          simp at hstep
          omega
        · rw [Bool.not_eq_true] at hk2
          rw [hk2] at hstep
          simp at hstep
          omega

/-- An id with a resolvable account record is passed to the account lookup
at most once more than it already was, and never again once it is a key. -/
theorem buildAux_acalls_count (dl : String → Option GDevice) (al : String → Option GAccount)
    (id : String) (h : (al id).isSome = true) :
    ∀ (cs : List Crossing) (st : BState),
      List.count id (buildAux dl al st cs).acalls ≤
        List.count id st.acalls + (if hasKey st.nodes id then 0 else 1) := by
  intro cs
  induction cs with
  | nil =>
    intro st
    show List.count id st.acalls ≤ _
    split <;> omega
  | cons c cs ih =>
    intro st
    show List.count id (buildAux dl al (stepCrossing dl al st c) cs).acalls ≤ _
    have hstep := ih (stepCrossing dl al st c)
    have ha := stepCrossing_acalls dl al st c
    by_cases hk : hasKey st.nodes id = true
    · have hne : List.count id (stepCrossing dl al st c).acalls = List.count id st.acalls := by
        rw [ha]
        by_cases hck : hasKey (stepDevice dl st c).nodes c.account_id = true
        · rw [if_pos hck]
        · rw [if_neg hck, List.count_append]
          have hnm : id ∉ [c.account_id] := by
            intro hmem
            rw [List.mem_singleton] at hmem
            rw [hmem] at hk
            exact hck (stepDevice_hasKey_mono dl st c c.account_id hk)
          rw [List.count_eq_zero.mpr hnm]
          omega
      have hkey2 := stepCrossing_hasKey_mono dl al st c id hk
      rw [hne, hkey2] at hstep
      rw [if_pos hk]
      simpa using hstep
    · rw [if_neg hk]
      by_cases hid : c.account_id = id
      · by_cases hck : hasKey (stepDevice dl st c).nodes c.account_id = true
        · have hcnt : List.count id (stepCrossing dl al st c).acalls =
              List.count id st.acalls := by
            rw [ha, if_pos hck]
          have hkey2 : hasKey (stepCrossing dl al st c).nodes id = true := by
            have := stepCrossing_hasKey_of_stepDevice dl al st c c.account_id hck
            rwa [hid] at this
          rw [hcnt, hkey2] at hstep
          simp at hstep
          omega
        · have hcnt : List.count id (stepCrossing dl al st c).acalls =
              List.count id st.acalls + 1 := by
            rw [ha, if_neg hck, List.count_append, hid]
            simp
          have hkey2 : hasKey (stepCrossing dl al st c).nodes id = true := by
            have hsome := stepCrossing_akey_some dl al st c (by rw [hid]; exact h)
            rwa [hid] at hsome
          rw [hcnt, hkey2] at hstep
          simp at hstep
          omega
      · have hcnt : List.count id (stepCrossing dl al st c).acalls =
            List.count id st.acalls := by
          rw [ha]
          by_cases hck : hasKey (stepDevice dl st c).nodes c.account_id = true
          · rw [if_pos hck]
          · rw [if_neg hck, List.count_append]
            have hnm : id ∉ [c.account_id] := by
              intro hmem
              rw [List.mem_singleton] at hmem
              exact hid hmem.symm
            rw [List.count_eq_zero.mpr hnm]
            omega
        rw [hcnt] at hstep
        by_cases hk2 : hasKey (stepCrossing dl al st c).nodes id = true
        · rw [hk2] at hstep
          simp at hstep
          omega
        · rw [Bool.not_eq_true] at hk2
          rw [hk2] at hstep
          simp at hstep
          omega

/-- C6: score/level consistency.  The returned `risk_level` equals the
fixed-threshold classification of the returned (rounded) `risk_score`:
classifying before rounding and after rounding never disagree. -/
theorem level_matches_rounded_score (d : RCDevice) (accs : List RCAccount)
    (ip : List (String × String)) (m : Option DeviceMatcher) :
    (calculate_device_risk d accs ip m).risk_level =
      risk_level_of (calculate_device_risk d accs ip m).risk_score := by
  have h := isThirdInt_raw_score d accs
  have h70 := int_le_round2_iff 70 h
  have h40 := int_le_round2_iff 40 h
  push_cast at h70 h40
  simp only [calculate_device_risk, risk_level_of, ge_iff_le]
  split_ifs <;> tauto

/-- Keys produced by the device phase: an existing key, or the crossing's
device id with a resolvable device record. -/
theorem stepDevice_hasKey_source (dl : String → Option GDevice) (st : BState) (c : Crossing)
    (k : String) (h : hasKey (stepDevice dl st c).nodes k = true) :
    hasKey st.nodes k = true ∨ (c.device_id = k ∧ (dl k).isSome = true) := by
  unfold stepDevice at h
  by_cases hk1 : hasKey st.nodes c.device_id = true
  · rw [if_pos hk1] at h
    exact Or.inl h
  · rw [if_neg hk1] at h
    cases hdl : dl c.device_id with
    | some d =>
      rw [hdl] at h
      rw [show ({ st with
          nodes := st.nodes ++ [(c.device_id, mkDeviceNode c.device_id d)],
          dcalls := st.dcalls ++ [c.device_id] } : BState).nodes =
          st.nodes ++ [(c.device_id, mkDeviceNode c.device_id d)] from rfl,
        hasKey_append, Bool.or_eq_true] at h
      rcases h with h | h
      · exact Or.inl h
      · have hid : c.device_id = k := by simpa [hasKey] using h
        refine Or.inr ⟨hid, ?_⟩
        rw [← hid, hdl]
        rfl
    | none =>
      rw [hdl] at h
      exact Or.inl h

/-- Keys produced by one loop iteration: an existing key, the crossing's
device id with a resolvable record, or the crossing's account id. -/
theorem stepCrossing_hasKey_source (dl : String → Option GDevice) (al : String → Option GAccount)
    (st : BState) (c : Crossing) (k : String)
    (h : hasKey (stepCrossing dl al st c).nodes k = true) :
    hasKey st.nodes k = true ∨ (c.device_id = k ∧ (dl k).isSome = true) ∨ c.account_id = k := by
  rw [stepCrossing, stepLink_nodes] at h
  unfold stepAccount at h
  by_cases hk2 : hasKey (stepDevice dl st c).nodes c.account_id = true
  · rw [if_pos hk2] at h
    rcases stepDevice_hasKey_source dl st c k h with h1 | h1
    · exact Or.inl h1
    · exact Or.inr (Or.inl h1)
  · rw [if_neg hk2] at h
    cases hal : al c.account_id with
    | some a =>
      rw [hal] at h
      rw [show ({ stepDevice dl st c with
          nodes := (stepDevice dl st c).nodes ++ [(c.account_id, mkAccountNode c.account_id a)],
          acalls := (stepDevice dl st c).acalls ++ [c.account_id] } : BState).nodes =
          (stepDevice dl st c).nodes ++ [(c.account_id, mkAccountNode c.account_id a)] from rfl,
        hasKey_append, Bool.or_eq_true] at h
      rcases h with h1 | h1
      · rcases stepDevice_hasKey_source dl st c k h1 with h2 | h2
        · exact Or.inl h2
        · exact Or.inr (Or.inl h2)
      · exact Or.inr (Or.inr (by simpa [hasKey] using h1))
    | none =>
      rw [hal] at h
      rcases stepDevice_hasKey_source dl st c k h with h1 | h1
      · exact Or.inl h1
      · exact Or.inr (Or.inl h1)

/-- Key provenance across the whole loop: every key of the final node map
was a key at the start, or comes from a crossing as its device id (with a
resolvable device record) or its account id. -/
theorem buildAux_hasKey_source (dl : String → Option GDevice) (al : String → Option GAccount) :
    ∀ (cs : List Crossing) (st : BState) (k : String),
      hasKey (buildAux dl al st cs).nodes k = true →
      hasKey st.nodes k = true ∨
        ∃ c ∈ cs, (c.device_id = k ∧ (dl k).isSome = true) ∨ c.account_id = k := by
  intro cs
  induction cs with
  | nil =>
    intro st k h
    exact Or.inl h
  | cons c cs ih =>
    intro st k h
    rcases ih (stepCrossing dl al st c) k h with h1 | h1
    · rcases stepCrossing_hasKey_source dl al st c k h1 with h2 | h2 | h2
      · exact Or.inl h2
      · exact Or.inr ⟨c, List.mem_cons_self c cs, Or.inl h2⟩
      · exact Or.inr ⟨c, List.mem_cons_self c cs, Or.inr h2⟩
    · obtain ⟨c2, hc2, hp⟩ := h1
      exact Or.inr ⟨c2, List.mem_cons_of_mem c hc2, hp⟩

/-- One iteration preserves the invariant that every link's endpoints are
keys of the node map. -/
theorem stepCrossing_links_keys (dl : String → Option GDevice) (al : String → Option GAccount)
    (st : BState) (c : Crossing)
    (hinv : ∀ l ∈ st.links, hasKey st.nodes l.source = true ∧ hasKey st.nodes l.target = true) :
    ∀ l ∈ (stepCrossing dl al st c).links,
      hasKey (stepCrossing dl al st c).nodes l.source = true ∧
      hasKey (stepCrossing dl al st c).nodes l.target = true := by
  intro l hl
  have hdlinks : (stepDevice dl st c).links = st.links := by
    unfold stepDevice
    split
    · rfl
    · cases dl c.device_id <;> rfl
  have halinks : (stepAccount al (stepDevice dl st c) c).links = st.links := by
    unfold stepAccount
    split
    · exact hdlinks
    · cases al c.account_id <;> exact hdlinks
  have hmono2 : ∀ k, hasKey (stepAccount al (stepDevice dl st c) c).nodes k = true →
      hasKey (stepCrossing dl al st c).nodes k = true := by
    intro k hk
    rw [stepCrossing, stepLink_nodes]
    exact hk
  have hmono0 := stepCrossing_hasKey_mono dl al st c
  rw [stepCrossing] at hl
  unfold stepLink at hl
  by_cases hcond : (hasKey (stepAccount al (stepDevice dl st c) c).nodes c.device_id &&
      hasKey (stepAccount al (stepDevice dl st c) c).nodes c.account_id) = true
  · rw [if_pos hcond] at hl
    simp only [List.mem_append, List.mem_singleton] at hl
    rcases hl with hl | hl
    · rw [halinks] at hl
      obtain ⟨hs, ht⟩ := hinv l hl
      exact ⟨hmono0 _ hs, hmono0 _ ht⟩
    · subst hl
      rw [Bool.and_eq_true] at hcond
      exact ⟨hmono2 _ hcond.1, hmono2 _ hcond.2⟩
  · rw [if_neg hcond] at hl
    rw [halinks] at hl
    obtain ⟨hs, ht⟩ := hinv l hl
    exact ⟨hmono0 _ hs, hmono0 _ ht⟩

/-- Across the whole loop, every emitted link's endpoints are keys of the
final node map. -/
theorem buildAux_links_keys (dl : String → Option GDevice) (al : String → Option GAccount) :
    ∀ (cs : List Crossing) (st : BState),
      (∀ l ∈ st.links, hasKey st.nodes l.source = true ∧ hasKey st.nodes l.target = true) →
      ∀ l ∈ (buildAux dl al st cs).links,
        hasKey (buildAux dl al st cs).nodes l.source = true ∧
        hasKey (buildAux dl al st cs).nodes l.target = true := by
  intro cs
  induction cs with
  | nil =>
    intro st hinv
    exact hinv
  | cons c cs ih =>
    intro st hinv
    exact ih (stepCrossing dl al st c) (stepCrossing_links_keys dl al st c hinv)

/-- A crossing whose account id resolves leaves that id as a key of the
final node map. -/
theorem buildAux_account_present (dl : String → Option GDevice) (al : String → Option GAccount) :
    ∀ (cs : List Crossing) (st : BState) (c : Crossing), c ∈ cs →
      (al c.account_id).isSome = true →
      hasKey (buildAux dl al st cs).nodes c.account_id = true := by
  intro cs
  induction cs with
  | nil =>
    intro st c hc
    exact absurd hc (List.not_mem_nil c)
  | cons c0 cs ih =>
    intro st c hc hsome
    rcases List.mem_cons.mp hc with he | hm
    · subst he
      exact buildAux_hasKey_mono dl al cs (stepCrossing dl al st c) c.account_id
        (stepCrossing_akey_some dl al st c hsome)
    · exact ih (stepCrossing dl al st c0) c hm hsome

/-- C1 counterexample: one crossing whose device lookup is absent while its
account lookup succeeds.  The crossing contributes one node (the account
node for `a1`) to the output graph, not the zero nodes the claim demands;
only the device node and the edge are omitted. -/
theorem orphan_device_counterexample :
    (build_graph dlAbsent alAlways csOrphanDevice).nodes.length = 1 ∧
    nodeAt (build_graph dlAbsent alAlways csOrphanDevice).nodes "a1" =
      some (mkAccountNode "a1" { kyc_level := "verified", risk_score := 10 }) ∧
    (build_graph dlAbsent alAlways csOrphanDevice).links = [] :=
  ⟨rfl, rfl, rfl⟩

/-- C1 amended: when no crossing's device id also occurs as an account id,
a crossing whose device lookup returns absent contributes no node under its
device id and no edge touching its device id, while its account node is
still added whenever the account lookup succeeds. -/
theorem orphan_device_omission (dl : String → Option GDevice) (al : String → Option GAccount)
    (cs : List Crossing)
    (hdisj : ∀ c1 ∈ cs, ∀ c2 ∈ cs, c1.device_id ≠ c2.account_id)
    (c : Crossing) (hc : c ∈ cs) (hd : dl c.device_id = none) :
    hasKey (build_graph dl al cs).nodes c.device_id = false ∧
    (∀ l ∈ (build_graph dl al cs).links, l.source ≠ c.device_id ∧ l.target ≠ c.device_id) ∧
    ((al c.account_id).isSome = true →
      hasKey (build_graph dl al cs).nodes c.account_id = true) := by
  have hnokey : hasKey (build_graph dl al cs).nodes c.device_id = false := by
    by_contra hne
    rw [Bool.not_eq_false] at hne
    rcases buildAux_hasKey_source dl al cs initState c.device_id hne with h1 | h1
    · simp [initState, hasKey] at h1
    · obtain ⟨c2, hc2, hp | hp⟩ := h1
      · obtain ⟨_, hsome⟩ := hp
        rw [hd] at hsome
        simp at hsome
      · exact (hdisj c hc c2 hc2) hp.symm
  refine ⟨hnokey, ?_, ?_⟩
  · intro l hl
    have hkeys := buildAux_links_keys dl al cs initState
      (by intro l0 hl0; simp [initState] at hl0) l hl
    have hn2 : hasKey (buildAux dl al initState cs).nodes c.device_id = false := hnokey
    constructor
    · intro he
      have hsrc := hkeys.1
      rw [he] at hsrc
      rw [hsrc] at hn2
      exact absurd hn2 (by simp)
    · intro he
      have htgt := hkeys.2
      rw [he] at htgt
      rw [htgt] at hn2
      exact absurd hn2 (by simp)
  · intro hsome
    exact buildAux_account_present dl al cs initState c hc hsome

/-- Witness for C1 amended, at the concrete orphan-device input: the device
node `d1` is absent from the output and the account node `a1` is present. -/
theorem orphan_device_omission_witness :
    hasKey (build_graph dlAbsent alAlways csOrphanDevice).nodes "d1" = false ∧
    hasKey (build_graph dlAbsent alAlways csOrphanDevice).nodes "a1" = true := by
  have h := orphan_device_omission dlAbsent alAlways csOrphanDevice (by decide)
    { device_id := "d1", account_id := "a1", risk_flag := "low" } (by decide) rfl
  exact ⟨h.1, h.2.2 rfl⟩

/-- C2 counterexample: two crossings reference the same device id `d1`
whose lookup returns absent.  The id is passed to the device lookup twice,
not at most once as the claim demands: a failed lookup inserts nothing into
the node map, so nothing prevents the retry. -/
theorem absent_lookup_repeated :
    (build_graph dlAbsent alAbsent csRepeatAbsent).dcalls = ["d1", "d1"] ∧
    List.count "d1" (build_graph dlAbsent alAbsent csRepeatAbsent).dcalls = 2 :=
  ⟨rfl, rfl⟩

/-- C2 amended: an id whose lookup succeeds is passed to its lookup at most
once over the whole crossing list (first occurrence inserts it into the
node map, which suppresses all later lookups); only ids whose lookup
returns the absence marker can be looked up once per crossing. -/
theorem lookup_frugality (dl : String → Option GDevice) (al : String → Option GAccount)
    (cs : List Crossing) (id : String) :
    ((dl id).isSome = true → List.count id (build_graph dl al cs).dcalls ≤ 1) ∧
    ((al id).isSome = true → List.count id (build_graph dl al cs).acalls ≤ 1) := by
  constructor
  · intro h
    have hb := buildAux_dcalls_count dl al id h cs initState
    simpa [build_graph, initState, hasKey] using hb
  · intro h
    have hb := buildAux_acalls_count dl al id h cs initState
    simpa [build_graph, initState, hasKey] using hb

/-- Witness for C2 amended: in the collision example the resolvable device
id `x` and the resolvable account id `a1` are each looked up at most
once. -/
theorem lookup_frugality_witness :
    List.count "x" (build_graph dlOnlyX alOnlyA1 csCollision).dcalls ≤ 1 ∧
    List.count "a1" (build_graph dlOnlyX alOnlyA1 csCollision).acalls ≤ 1 :=
  ⟨(lookup_frugality dlOnlyX alOnlyA1 csCollision "x").1 rfl,
   (lookup_frugality dlOnlyX alOnlyA1 csCollision "a1").2 rfl⟩

/-- C10 counterexample: in the collision input, the account id `x` of the
second crossing is already a device node, its account lookup is indeed
skipped and no account node is added, but the edge for that crossing is NOT
emitted (only the first crossing's edge exists) because the second
crossing's device id `d2` did not resolve — the claim's unconditional "the
edge is still emitted" is false. -/
theorem collision_counterexample :
    nodeAt (build_graph dlOnlyX alOnlyA1 csCollision).nodes "x" =
      some (mkDeviceNode "x" gDeviceX) ∧
    (build_graph dlOnlyX alOnlyA1 csCollision).acalls = ["a1"] ∧
    (build_graph dlOnlyX alOnlyA1 csCollision).links =
      [mkLink { device_id := "x", account_id := "a1", risk_flag := "low" }] :=
  ⟨rfl, rfl, rfl⟩

/-- C10 amended: for a crossing whose account id is already a key of the
node map holding a device-group node, the account phase is the identity
(the account lookup is not invoked and no account node is added), the node
at that key is unchanged, and the edge for that crossing — whose target is
that existing device-group node — is emitted exactly when the crossing's
device id is a key after the device phase. -/
theorem account_id_collision (dl : String → Option GDevice) (al : String → Option GAccount)
    (st : BState) (c : Crossing) (n : GNode)
    (h : nodeAt st.nodes c.account_id = some n) (_hg : n.group = "device") :
    stepAccount al (stepDevice dl st c) c = stepDevice dl st c ∧
    nodeAt (stepCrossing dl al st c).nodes c.account_id = some n ∧
    ((stepCrossing dl al st c).links = st.links ++ [mkLink c] ↔
      hasKey (stepDevice dl st c).nodes c.device_id = true) ∧
    (hasKey (stepDevice dl st c).nodes c.device_id = false →
      (stepCrossing dl al st c).links = st.links) := by
  obtain ⟨t1, ht1⟩ := stepDevice_nodes_extend dl st c
  have hkey : hasKey st.nodes c.account_id = true := hasKey_of_nodeAt h
  have hkey1 : hasKey (stepDevice dl st c).nodes c.account_id = true :=
    stepDevice_hasKey_mono dl st c _ hkey
  have hacc : stepAccount al (stepDevice dl st c) c = stepDevice dl st c := by
    unfold stepAccount
    rw [if_pos hkey1]
  have hdl : (stepDevice dl st c).links = st.links := by
    unfold stepDevice
    split
    · rfl
    · cases dl c.device_id <;> rfl
  refine ⟨hacc, ?_, ?_, ?_⟩
  · rw [stepCrossing, stepLink_nodes, hacc, ht1]
    exact nodeAt_append_left t1 h
  · rw [stepCrossing, hacc]
    unfold stepLink
    simp only [hkey1, Bool.and_true]
    constructor
    · intro hlinks
      by_cases hdk : hasKey (stepDevice dl st c).nodes c.device_id = true
      · exact hdk
      · exfalso
        rw [Bool.not_eq_true] at hdk
        rw [hdk] at hlinks
        simp only [Bool.false_eq_true, if_false] at hlinks
        rw [hdl] at hlinks
        have hlen := congrArg List.length hlinks
        simp at hlen
    · intro hdk
      rw [if_pos hdk]
      show (stepDevice dl st c).links ++ [mkLink c] = st.links ++ [mkLink c]
      rw [hdl]
  · intro hdk
    rw [stepCrossing, hacc]
    unfold stepLink
    rw [hdk]
    simp only [Bool.false_and, Bool.false_eq_true, if_false]
    exact hdl

/-- Witness for C10 amended, at the concrete collision state: the second
crossing's device id does not resolve, so no edge is appended. -/
theorem account_id_collision_witness :
    (stepCrossing dlOnlyX alOnlyA1 stColl cColl).links = stColl.links := by
  have h := account_id_collision dlOnlyX alOnlyA1 stColl cColl
    (mkDeviceNode "x" gDeviceX) rfl rfl
  exact h.2.2.2 rfl

end DFA
